import Mathlib

/-!
Shallow embedding of the `maddr` multiaddr library:
the segment registry (`src/segment.rs`), the protocol-stack types and
their `Display` implementations (`src/multiaddr.rs`), and models of the
external field value types (IPv4/IPv6 addresses, 16-bit ports, and the
opaque multihash) together with their canonical textual forms.
-/

namespace Maddr

/-! ### Decimal and hexadecimal rendering of unsigned integers

Models the standard decimal `Display` (used for `u8` octets and `u16`
ports) and the lowercase hexadecimal rendering used for IPv6 groups.
The recursion is fuelled (fuel `n + 1` always suffices for `n`), mirroring
the usual digit-extraction loop. -/

/-- The character for a single decimal digit value. -/
def decChar : Nat → Char
  | 0 => '0' | 1 => '1' | 2 => '2' | 3 => '3' | 4 => '4'
  | 5 => '5' | 6 => '6' | 7 => '7' | 8 => '8' | _ => '9'

/-- The character for a single lowercase hexadecimal digit value. -/
def hexChar : Nat → Char
  | 0 => '0' | 1 => '1' | 2 => '2' | 3 => '3' | 4 => '4'
  | 5 => '5' | 6 => '6' | 7 => '7' | 8 => '8' | 9 => '9'
  | 10 => 'a' | 11 => 'b' | 12 => 'c' | 13 => 'd' | 14 => 'e' | _ => 'f'

/-- Fuelled most-significant-first digit extraction in a given base with
a given digit-to-character table. -/
def digitsCore (base : Nat) (digit : Nat → Char) : Nat → Nat → List Char
  | 0, _ => []
  | fuel + 1, n =>
    if n < base then [digit n]
    else digitsCore base digit fuel (n / base) ++ [digit (n % base)]

/-- Decimal digits of a natural number, most significant first. -/
def natDigits (n : Nat) : List Char := digitsCore 10 decChar (n + 1) n

/-- Decimal `Display` of an unsigned integer (u8 octets, u16 ports). -/
def natRepr (n : Nat) : String := ⟨natDigits n⟩

/-- Lowercase hexadecimal digits of a natural number, as written by the
Rust format specifier for hex. -/
def hexDigits (n : Nat) : List Char := digitsCore 16 hexChar (n + 1) n

/-! ### IPv4 addresses

Modelled from the spec: the standard-library IPv4 address value, four
octets, whose canonical textual form is the dotted-quad decimal form. -/

structure Ipv4Addr where
  a : Nat
  b : Nat
  c : Nat
  d : Nat
deriving DecidableEq

/-- Dotted-quad character rendering of an IPv4 address. -/
def ipv4Chars (ip : Ipv4Addr) : List Char :=
  natDigits ip.a ++ ('.' :: natDigits ip.b) ++ ('.' :: natDigits ip.c) ++ ('.' :: natDigits ip.d)

/-- Canonical textual form of an IPv4 address (dotted-quad). -/
def ipv4Repr (ip : Ipv4Addr) : String := ⟨ipv4Chars ip⟩

/-! ### IPv6 addresses

Modelled from the spec: the standard-library IPv6 address value, eight
16-bit groups, whose canonical textual form is the compressed colon-hex
form (longest zero run elided to a double colon, with the conventional
special cases for the all-zero, loopback, IPv4-compatible and
IPv4-mapped addresses). -/

structure Ipv6Addr where
  g0 : Nat
  g1 : Nat
  g2 : Nat
  g3 : Nat
  g4 : Nat
  g5 : Nat
  g6 : Nat
  g7 : Nat
deriving DecidableEq

/-- The eight 16-bit groups of an IPv6 address, in order. -/
def Ipv6Addr.segments (ip : Ipv6Addr) : List Nat :=
  [ip.g0, ip.g1, ip.g2, ip.g3, ip.g4, ip.g5, ip.g6, ip.g7]

/-- Renders `:x` for each group of the tail of a group list. -/
def colonHexTail : List Nat → List Char
  | [] => []
  | g :: rest => ':' :: (hexDigits g ++ colonHexTail rest)

/-- Renders a subslice of groups as colon-separated lowercase hex
(empty subslices render as nothing). -/
def fmtSubslice : List Nat → List Char
  | [] => []
  | g :: rest => hexDigits g ++ colonHexTail rest

/-- One pass of the longest-zero-run search: state is
(longest run start, longest run length, current run start, current run length). -/
def findZeroSliceAux : List Nat → Nat → Nat × Nat × Nat × Nat → Nat × Nat
  | [], _, (lAt, lLen, _, _) => (lAt, lLen)
  | g :: rest, i, (lAt, lLen, cAt, cLen) =>
    if g = 0 then
      let cAt' := if cLen = 0 then i else cAt
      let cLen' := cLen + 1
      if cLen' > lLen then findZeroSliceAux rest (i + 1) (cAt', cLen', cAt', cLen')
      else findZeroSliceAux rest (i + 1) (lAt, lLen, cAt', cLen')
    else findZeroSliceAux rest (i + 1) (lAt, lLen, 0, 0)

/-- Start and length of the longest run of zero groups. -/
def findZeroSlice (gs : List Nat) : Nat × Nat :=
  findZeroSliceAux gs 0 (0, 0, 0, 0)

/-- The embedded dotted-quad form of the last two groups, used by the
IPv4-compatible and IPv4-mapped special cases (each group is split into
its high and low octet). -/
def ipv4Embedded (g h : Nat) : List Char :=
  natDigits (g / 256 % 256) ++ ('.' :: natDigits (g % 256)) ++
    ('.' :: natDigits (h / 256 % 256)) ++ ('.' :: natDigits (h % 256))

/-- Compressed colon-hex character rendering of an IPv6 address. -/
def ipv6Chars (ip : Ipv6Addr) : List Char :=
  if ip.segments = [0, 0, 0, 0, 0, 0, 0, 0] then [':', ':']
  else if ip.segments = [0, 0, 0, 0, 0, 0, 0, 1] then [':', ':', '1']
  else if ip.segments.take 6 = [0, 0, 0, 0, 0, 0] then
    ':' :: ':' :: ipv4Embedded ip.g6 ip.g7
  else if ip.segments.take 6 = [0, 0, 0, 0, 0, 65535] then
    ':' :: ':' :: 'f' :: 'f' :: 'f' :: 'f' :: ':' :: ipv4Embedded ip.g6 ip.g7
  else if 1 < (findZeroSlice ip.segments).2 then
    fmtSubslice (ip.segments.take (findZeroSlice ip.segments).1) ++ ':' :: ':' ::
      fmtSubslice (ip.segments.drop ((findZeroSlice ip.segments).1 + (findZeroSlice ip.segments).2))
  else fmtSubslice ip.segments

/-- Canonical textual form of an IPv6 address (compressed colon-hex). -/
def ipv6Repr (ip : Ipv6Addr) : String := ⟨ipv6Chars ip⟩

/-! ### Multihash

Modelled from the spec: the external multihash collaborator is an opaque
content-identifier value constructed elsewhere from a hash-algorithm
variant and raw digest bytes; this core only stores it and renders its
canonical textual form, the base58 encoding of the self-describing bytes
(varint algorithm code, varint digest length, digest bytes). -/

structure MultiHash where
  code : Nat
  digest : List Nat
deriving DecidableEq

/-- Fuelled little-endian base-128 varint encoding of a natural number. -/
def varintAux : Nat → Nat → List Nat
  | 0, _ => []
  | fuel + 1, n =>
    if n < 128 then [n]
    else (n % 128 + 128) :: varintAux fuel (n / 128)

/-- Varint encoding of a natural number (always at least one byte). -/
def varint (n : Nat) : List Nat := varintAux (n + 1) n

/-- The self-describing byte string of a multihash:
varint code, varint digest length, digest bytes. -/
def MultiHash.bytes (h : MultiHash) : List Nat :=
  varint h.code ++ varint h.digest.length ++ h.digest

/-- The base58btc digit alphabet. -/
def base58Alphabet : List Char :=
  "123456789ABCDEFGHJKLMNPQRSTUVWXYZabcdefghijkmnopqrstuvwxyz".data

/-- The base58 digit character for a digit value. -/
def base58Char (n : Nat) : Char := base58Alphabet.getD n '1'

/-- The big-endian natural number a byte string denotes. -/
def bytesToNat (bytes : List Nat) : Nat :=
  bytes.foldl (fun acc b => acc * 256 + b) 0

/-- Base58btc encoding of a byte string: one `1` per leading zero byte,
then the base-58 digits of the remaining big-endian value. -/
def base58Chars (bytes : List Nat) : List Char :=
  List.replicate (bytes.takeWhile (fun b => b = 0)).length '1' ++
    (if bytesToNat bytes = 0 then []
     else digitsCore 58 base58Char (2 * bytes.length + 1) (bytesToNat bytes))

/-- Canonical textual form of a multihash (base58 of its bytes). -/
def multihashRepr (h : MultiHash) : String := ⟨base58Chars h.bytes⟩

/-! ### The segment registry (`src/segment.rs`)

Each `segment!` invocation declares one kind with its constant code,
constant name and field list; the kinds are collapsed into one tagged
union, one constructor per generated struct, as no exposed behaviour
distinguishes them beyond their tag and fields. -/

/-- The closed set of segment kinds declared by the `segment!` invocations. -/
inductive SegKind
  | dccp | http | https | ip4 | ip6 | ipfs | sctp | tcp | udp | udt | utp
deriving DecidableEq, Fintype

/-- A segment instance: one kind together with its field values
(`Dccp`, `Http`, `Https`, `IP4`, `IP6`, `Ipfs`, `Sctp`, `Tcp`, `Udp`,
`Udt`, `Utp` in the source). -/
inductive Segment
  | dccp (port : Nat)
  | http
  | https
  | ip4 (ip : Ipv4Addr)
  | ip6 (ip : Ipv6Addr)
  | ipfs (hash : MultiHash)
  | sctp (port : Nat)
  | tcp (port : Nat)
  | udp (port : Nat)
  | udt
  | utp
deriving DecidableEq

/-- The kind of a segment instance. -/
def Segment.kind : Segment → SegKind
  | .dccp _ => .dccp
  | .http => .http
  | .https => .https
  | .ip4 _ => .ip4
  | .ip6 _ => .ip6
  | .ipfs _ => .ipfs
  | .sctp _ => .sctp
  | .tcp _ => .tcp
  | .udp _ => .udp
  | .udt => .udt
  | .utp => .utp

/-- The per-kind constant `code()` of each `Segment` impl. -/
def SegKind.code : SegKind → Nat
  | .dccp => 33
  | .http => 480
  | .https => 443
  | .ip4 => 4
  | .ip6 => 41
  | .ipfs => 421
  | .sctp => 132
  | .tcp => 6
  | .udp => 17
  | .udt => 301
  | .utp => 302

/-- The per-kind constant `name()` of each `Segment` impl. -/
def SegKind.name : SegKind → String
  | .dccp => "dccp"
  | .http => "http"
  | .https => "https"
  | .ip4 => "ip4"
  | .ip6 => "ip6"
  | .ipfs => "ipfs"
  | .sctp => "sctp"
  | .tcp => "tcp"
  | .udp => "udp"
  | .udt => "udt"
  | .utp => "utp"

/-- The `data()` iterator of each `Segment` impl: the textual form of
each field value, in declared order (zero-field kinds yield nothing). -/
def Segment.data : Segment → List String
  | .dccp port => [natRepr port]
  | .http => []
  | .https => []
  | .ip4 ip => [ipv4Repr ip]
  | .ip6 ip => [ipv6Repr ip]
  | .ipfs hash => [multihashRepr hash]
  | .sctp port => [natRepr port]
  | .tcp port => [natRepr port]
  | .udp port => [natRepr port]
  | .udt => []
  | .utp => []

/-- The derived field-wise `PartialEq` of the segment structs, lifted to
the tagged union: equal tags and equal field values. -/
def segEq : Segment → Segment → Bool
  | .dccp p, .dccp q => decide (p = q)
  | .http, .http => true
  | .https, .https => true
  | .ip4 p, .ip4 q => decide (p = q)
  | .ip6 p, .ip6 q => decide (p = q)
  | .ipfs p, .ipfs q => decide (p = q)
  | .sctp p, .sctp q => decide (p = q)
  | .tcp p, .tcp q => decide (p = q)
  | .udp p, .udp q => decide (p = q)
  | .udt, .udt => true
  | .utp, .utp => true
  | _, _ => false

/-- The `From` impl for the IPv4 address type in `src/segment.rs`
(wraps the address in an `IP4` segment). -/
def segFromIpv4 (ip : Ipv4Addr) : Segment := .ip4 ip

/-- The `From` impl for the IPv6 address type in `src/segment.rs`
(wraps the address in an `IP6` segment). -/
def segFromIpv6 (ip : Ipv6Addr) : Segment := .ip6 ip

/-! ### Protocol stacks (`src/multiaddr.rs`)

`S` wraps a single segment; `M` is a previously built stack plus one
appended segment. The `Display` impls render a leaf as `/name` followed
by `/value` per field, and a cons as the prefix's rendering followed by
the leaf rendering of the appended segment. -/

/-- A protocol stack: `S` (leaf) or `M` (cons), as in `src/multiaddr.rs`. -/
inductive MultiAddr
  | S (s : Segment)
  | M (m : MultiAddr) (s : Segment)
deriving DecidableEq

/-- `wrap`: building the one-segment stack `S(x)`. -/
def wrap (x : Segment) : MultiAddr := .S x

/-- `append`: extending a stack with one more segment via `M`. -/
def append (m : MultiAddr) (x : Segment) : MultiAddr := .M m x

/-- The `Display` impl for `S`: write `/name`, then `/datum` for each
datum of the wrapped segment, accumulated left to right. -/
def renderS (x : Segment) : String :=
  x.data.foldl (fun acc d => acc ++ "/" ++ d) ("/" ++ x.kind.name)

/-- The `Display` impl for `S` and `M` together: a leaf renders by
`renderS`; a cons writes its prefix stack then the `S`-rendering of its
last segment. -/
def render : MultiAddr → String
  | .S x => renderS x
  | .M m x => render m ++ renderS x

/-- The derived `PartialEq` of `S` and `M`, lifted to the union:
equal shapes with field-wise equal segments. -/
def maEq : MultiAddr → MultiAddr → Bool
  | .S a, .S b => segEq a b
  | .M m a, .M n b => maEq m n && segEq a b
  | _, _ => false

/-- The ordered list of segments of a stack, outermost first. -/
def toList : MultiAddr → List Segment
  | .S x => [x]
  | .M m x => toList m ++ [x]

/-! ### Character-level facts about the field renderings -/

/-- A character list mentioning no slash. -/
def slashFree (l : List Char) : Prop := ∀ c ∈ l, c ≠ '/'

/-- No two adjacent characters are both slashes, i.e. no empty group. -/
def noDoubleSlash (l : List Char) : Prop :=
  List.Chain' (fun a b => ¬(a = '/' ∧ b = '/')) l

instance (l : List Char) : Decidable (slashFree l) :=
  List.decidableBAll (fun c => c ≠ '/') l

instance (l : List Char) : Decidable (noDoubleSlash l) :=
  List.decidableChain' l

theorem slashFree_append {l₁ l₂ : List Char} (h₁ : slashFree l₁) (h₂ : slashFree l₂) :
    slashFree (l₁ ++ l₂) := by
  intro c hc
  rcases List.mem_append.1 hc with h | h
  · exact h₁ c h
  · exact h₂ c h

theorem slashFree_cons {a : Char} {l : List Char} (ha : a ≠ '/') (h : slashFree l) :
    slashFree (a :: l) := by
  intro c hc
  rcases List.mem_cons.1 hc with rfl | hc
  · exact ha
  · exact h c hc

theorem decChar_ne_slash (n : Nat) : decChar n ≠ '/' := by
  unfold decChar; split <;> decide

theorem hexChar_ne_slash (n : Nat) : hexChar n ≠ '/' := by
  unfold hexChar; split <;> decide

theorem base58Char_ne_slash (n : Nat) : base58Char n ≠ '/' := by
  have halpha : ∀ c ∈ base58Alphabet, c ≠ '/' := by decide
  unfold base58Char
  rcases Nat.lt_or_ge n base58Alphabet.length with h | h
  · rw [List.getD_eq_getElem?_getD, List.getElem?_eq_getElem h]
    exact halpha _ (List.getElem_mem h)
  · rw [List.getD_eq_default _ _ h]; decide

theorem digitsCore_slashFree (base : Nat) (digit : Nat → Char)
    (hd : ∀ k, digit k ≠ '/') (fuel n : Nat) : slashFree (digitsCore base digit fuel n) := by
  induction fuel generalizing n with
  | zero => intro c hc; simp [digitsCore] at hc
  | succ fuel ih =>
    intro c hc
    rw [digitsCore] at hc
    split at hc
    · rcases List.mem_singleton.1 hc with rfl; exact hd _
    · rcases List.mem_append.1 hc with h | h
      · exact ih _ c h
      · rcases List.mem_singleton.1 h with rfl; exact hd _

theorem digitsCore_ne_nil (base : Nat) (digit : Nat → Char) (fuel n : Nat) :
    digitsCore base digit (fuel + 1) n ≠ [] := by
  rw [digitsCore]
  split
  · simp
  · simp

theorem natDigits_slashFree (n : Nat) : slashFree (natDigits n) :=
  digitsCore_slashFree 10 decChar decChar_ne_slash _ n

theorem natDigits_ne_nil (n : Nat) : natDigits n ≠ [] :=
  digitsCore_ne_nil 10 decChar n n

theorem hexDigits_slashFree (n : Nat) : slashFree (hexDigits n) :=
  digitsCore_slashFree 16 hexChar hexChar_ne_slash _ n

theorem hexDigits_ne_nil (n : Nat) : hexDigits n ≠ [] :=
  digitsCore_ne_nil 16 hexChar n n

theorem ipv4Chars_slashFree (ip : Ipv4Addr) : slashFree (ipv4Chars ip) := by
  unfold ipv4Chars
  refine slashFree_append (slashFree_append (slashFree_append (natDigits_slashFree _)
    (slashFree_cons (by decide) (natDigits_slashFree _)))
    (slashFree_cons (by decide) (natDigits_slashFree _)))
    (slashFree_cons (by decide) (natDigits_slashFree _))

theorem ipv4Chars_ne_nil (ip : Ipv4Addr) : ipv4Chars ip ≠ [] := by
  unfold ipv4Chars
  intro h
  exact natDigits_ne_nil ip.a
    (List.append_eq_nil.1 (List.append_eq_nil.1 (List.append_eq_nil.1 h).1).1).1

theorem colonHexTail_slashFree (gs : List Nat) : slashFree (colonHexTail gs) := by
  induction gs with
  | nil => intro c hc; simp [colonHexTail] at hc
  | cons g rest ih =>
    rw [colonHexTail]
    exact slashFree_cons (by decide) (slashFree_append (hexDigits_slashFree g) ih)

theorem fmtSubslice_slashFree (gs : List Nat) : slashFree (fmtSubslice gs) := by
  cases gs with
  | nil => intro c hc; simp [fmtSubslice] at hc
  | cons g rest =>
    rw [fmtSubslice]
    exact slashFree_append (hexDigits_slashFree g) (colonHexTail_slashFree rest)

theorem ipv4Embedded_slashFree (g h : Nat) : slashFree (ipv4Embedded g h) := by
  unfold ipv4Embedded
  refine slashFree_append (slashFree_append (slashFree_append (natDigits_slashFree _)
    (slashFree_cons (by decide) (natDigits_slashFree _)))
    (slashFree_cons (by decide) (natDigits_slashFree _)))
    (slashFree_cons (by decide) (natDigits_slashFree _))

theorem ipv6Chars_slashFree (ip : Ipv6Addr) : slashFree (ipv6Chars ip) := by
  unfold ipv6Chars
  split_ifs
  · decide
  · decide
  · exact slashFree_cons (by decide) (slashFree_cons (by decide) (ipv4Embedded_slashFree _ _))
  · refine slashFree_cons (by decide) (slashFree_cons (by decide) ?_)
    refine slashFree_cons (by decide) (slashFree_cons (by decide) ?_)
    refine slashFree_cons (by decide) (slashFree_cons (by decide) ?_)
    exact slashFree_cons (by decide) (ipv4Embedded_slashFree _ _)
  · refine slashFree_append (fmtSubslice_slashFree _) ?_
    exact slashFree_cons (by decide) (slashFree_cons (by decide) (fmtSubslice_slashFree _))
  · exact fmtSubslice_slashFree _

theorem ipv6Chars_ne_nil (ip : Ipv6Addr) : ipv6Chars ip ≠ [] := by
  unfold ipv6Chars
  split_ifs
  · decide
  · decide
  · simp
  · simp
  · intro h
    rcases List.append_eq_nil.1 h with ⟨_, h2⟩
    simp at h2
  · show fmtSubslice ip.segments ≠ []
    simp only [Ipv6Addr.segments, fmtSubslice]
    intro h
    exact hexDigits_ne_nil ip.g0 (List.append_eq_nil.1 h).1

theorem varint_ne_nil (n : Nat) : varint n ≠ [] := by
  rw [varint, varintAux]
  split
  · simp
  · simp

theorem bytes_ne_nil (h : MultiHash) : h.bytes ≠ [] := by
  rw [MultiHash.bytes]
  intro hc
  exact varint_ne_nil h.code (List.append_eq_nil.1 (List.append_eq_nil.1 hc).1).1

theorem bytesToNat_eq_zero {l : List Nat} (acc : Nat)
    (h : l.foldl (fun a b => a * 256 + b) acc = 0) : acc = 0 ∧ ∀ b ∈ l, b = 0 := by
  induction l generalizing acc with
  | nil => simpa using h
  | cons b t ih =>
    have hrec := ih (acc * 256 + b) (by simpa using h)
    have h1 : acc * 256 + b = 0 := hrec.1
    refine ⟨by omega, ?_⟩
    intro c hc
    rcases List.mem_cons.1 hc with rfl | hc
    · omega
    · exact hrec.2 _ hc

theorem base58Chars_slashFree (bytes : List Nat) : slashFree (base58Chars bytes) := by
  unfold base58Chars
  refine slashFree_append ?_ ?_
  · intro c hc
    rcases List.eq_of_mem_replicate hc with rfl
    decide
  · split
    · intro c hc; simp at hc
    · exact digitsCore_slashFree 58 base58Char base58Char_ne_slash _ _

theorem base58Chars_ne_nil {bytes : List Nat} (hb : bytes ≠ []) : base58Chars bytes ≠ [] := by
  unfold base58Chars
  intro h
  rcases List.append_eq_nil.1 h with ⟨h1, h2⟩
  by_cases h0 : bytesToNat bytes = 0
  · have hz : ∀ b ∈ bytes, b = 0 := (bytesToNat_eq_zero 0 (by rwa [bytesToNat] at h0)).2
    have ht : bytes.takeWhile (fun b => b = 0) = bytes :=
      List.takeWhile_eq_self_iff.2 (fun b hbmem => by simp [hz b hbmem])
    rw [ht] at h1
    exact hb (List.length_eq_zero.1 (by simpa using h1))
  · rw [if_neg h0] at h2
    exact digitsCore_ne_nil 58 base58Char _ _ h2

/-! ### The separator-join invariant of rendered fragments -/

/-- Invariant of a rendered fragment: starts with a slash, does not end
with a slash, and has no two adjacent slashes. -/
def Inv (l : List Char) : Prop :=
  l.head? = some '/' ∧ (∀ c ∈ l.getLast?, c ≠ '/') ∧ noDoubleSlash l

theorem Inv.ne_nil {l : List Char} (h : Inv l) : l ≠ [] := by
  intro hnil
  rw [hnil] at h
  exact Option.noConfusion h.1

theorem slashFree_noDoubleSlash {l : List Char} (h : slashFree l) : noDoubleSlash l := by
  induction l with
  | nil => exact List.chain'_nil
  | cons a t ih =>
    cases t with
    | nil => exact List.chain'_singleton a
    | cons b t' =>
      rw [noDoubleSlash, List.chain'_cons]
      refine ⟨fun hc => h a (List.mem_cons_self _ _) hc.1, ?_⟩
      exact ih (fun c hc => h c (List.mem_cons_of_mem _ hc))

theorem Inv.append {l₁ l₂ : List Char} (h₁ : Inv l₁) (h₂ : Inv l₂) : Inv (l₁ ++ l₂) := by
  obtain ⟨hh₁, hl₁, hc₁⟩ := h₁
  obtain ⟨hh₂, hl₂, hc₂⟩ := h₂
  have hne₂ : l₂ ≠ [] := by intro h; rw [h] at hh₂; exact Option.noConfusion hh₂
  rcases Option.isSome_iff_exists.1 (List.getLast?_isSome.2 hne₂) with ⟨d, hd⟩
  refine ⟨?_, ?_, ?_⟩
  · rw [List.head?_append, hh₁]; rfl
  · intro c hc
    have h2 : (l₁ ++ l₂).getLast? = some d := by
      rw [List.getLast?_append, hd]; rfl
    rw [h2] at hc
    have hcd : d = c := by simpa using hc
    rcases hcd with rfl
    exact hl₂ d (Option.mem_def.2 hd)
  · rw [noDoubleSlash, List.chain'_append]
    exact ⟨hc₁, hc₂, fun x hx y _ hxy => (hl₁ x hx) hxy.1⟩

theorem Inv.piece {p : List Char} (hp : p ≠ []) (hsf : slashFree p) : Inv ('/' :: p) := by
  rcases Option.isSome_iff_exists.1 (List.getLast?_isSome.2 hp) with ⟨d, hd⟩
  refine ⟨rfl, ?_, ?_⟩
  · intro c hc
    have hgl : ('/' :: p).getLast? = some d := by
      show (['/'] ++ p).getLast? = some d
      rw [List.getLast?_append, hd]; rfl
    rw [hgl] at hc
    have hcd : d = c := by simpa using hc
    rcases hcd with rfl
    exact hsf d (List.mem_of_mem_getLast? (Option.mem_def.2 hd))
  · show List.Chain' _ (['/'] ++ p)
    rw [List.chain'_append]
    refine ⟨List.chain'_singleton _, slashFree_noDoubleSlash hsf, ?_⟩
    intro x _ y hy hxy
    exact hsf y (List.mem_of_mem_head? hy) hxy.2

theorem Inv.sepJoin {ps : List (List Char)} (hps : ps ≠ [])
    (h : ∀ p ∈ ps, p ≠ [] ∧ slashFree p) :
    Inv ((ps.map (fun p => '/' :: p)).flatten) := by
  induction ps with
  | nil => exact absurd rfl hps
  | cons p rest ih =>
    rw [List.map_cons, List.flatten_cons]
    rcases h p (List.mem_cons_self _ _) with ⟨hp1, hp2⟩
    cases rest with
    | nil => simpa using Inv.piece hp1 hp2
    | cons q rest' =>
      exact (Inv.piece hp1 hp2).append
        (ih (by simp) (fun r hr => h r (List.mem_cons_of_mem _ hr)))

/-! ### Characterizing the `Display` output -/

theorem natRepr_data (n : Nat) : (natRepr n).data = natDigits n := rfl

theorem ipv4Repr_data (ip : Ipv4Addr) : (ipv4Repr ip).data = ipv4Chars ip := rfl

theorem ipv6Repr_data (ip : Ipv6Addr) : (ipv6Repr ip).data = ipv6Chars ip := rfl

theorem multihashRepr_data (h : MultiHash) :
    (multihashRepr h).data = base58Chars h.bytes := rfl

theorem slash_data : ("/" : String).data = ['/'] := rfl

/-- The left fold of formatter writes, as an explicit concatenation. -/
theorem foldl_slash_data (l : List String) (init : String) :
    (l.foldl (fun acc d => acc ++ "/" ++ d) init).data =
      init.data ++ (l.map (fun d => '/' :: d.data)).flatten := by
  induction l generalizing init with
  | nil => simp
  | cons d rest ih =>
    rw [List.foldl_cons, ih]
    simp [String.data_append, slash_data]

/-- The right fold used to state the specified group concatenation,
as the same explicit concatenation. -/
theorem foldr_slash_data (l : List String) :
    (l.foldr (fun d acc => "/" ++ d ++ acc) "").data =
      (l.map (fun d => '/' :: d.data)).flatten := by
  induction l with
  | nil => rfl
  | cons d rest ih =>
    rw [List.foldr_cons]
    simp [String.data_append, slash_data, ih]

/-- The leaf rendering is the separator-join of the name piece and
the field pieces. -/
theorem renderS_data (x : Segment) :
    (renderS x).data =
      ((x.kind.name.data :: x.data.map String.data).map (fun p => '/' :: p)).flatten := by
  rw [renderS, foldl_slash_data]
  simp [String.data_append, slash_data, List.map_map, Function.comp_def]

/-- Every piece of a segment's rendering (name and each field form) is
non-empty and slash-free. -/
theorem seg_pieces (x : Segment) :
    ∀ p ∈ x.kind.name.data :: x.data.map String.data, p ≠ [] ∧ slashFree p := by
  intro p hp
  cases x with
  | dccp port =>
    simp only [Segment.data, Segment.kind, SegKind.name, List.map_cons, List.map_nil,
      natRepr_data, List.mem_cons, List.mem_nil_iff, or_false] at hp
    rcases hp with rfl | rfl
    · exact ⟨by decide, by decide⟩
    · exact ⟨natDigits_ne_nil _, natDigits_slashFree _⟩
  | http =>
    simp only [Segment.data, Segment.kind, SegKind.name, List.map_nil, List.mem_singleton] at hp
    rcases hp with rfl
    exact ⟨by decide, by decide⟩
  | https =>
    simp only [Segment.data, Segment.kind, SegKind.name, List.map_nil, List.mem_singleton] at hp
    rcases hp with rfl
    exact ⟨by decide, by decide⟩
  | ip4 ip =>
    simp only [Segment.data, Segment.kind, SegKind.name, List.map_cons, List.map_nil,
      ipv4Repr_data, List.mem_cons, List.mem_nil_iff, or_false] at hp
    rcases hp with rfl | rfl
    · exact ⟨by decide, by decide⟩
    · exact ⟨ipv4Chars_ne_nil _, ipv4Chars_slashFree _⟩
  | ip6 ip =>
    simp only [Segment.data, Segment.kind, SegKind.name, List.map_cons, List.map_nil,
      ipv6Repr_data, List.mem_cons, List.mem_nil_iff, or_false] at hp
    rcases hp with rfl | rfl
    · exact ⟨by decide, by decide⟩
    · exact ⟨ipv6Chars_ne_nil _, ipv6Chars_slashFree _⟩
  | ipfs hash =>
    simp only [Segment.data, Segment.kind, SegKind.name, List.map_cons, List.map_nil,
      multihashRepr_data, List.mem_cons, List.mem_nil_iff, or_false] at hp
    rcases hp with rfl | rfl
    · exact ⟨by decide, by decide⟩
    · exact ⟨base58Chars_ne_nil (bytes_ne_nil hash), base58Chars_slashFree _⟩
  | sctp port =>
    simp only [Segment.data, Segment.kind, SegKind.name, List.map_cons, List.map_nil,
      natRepr_data, List.mem_cons, List.mem_nil_iff, or_false] at hp
    rcases hp with rfl | rfl
    · exact ⟨by decide, by decide⟩
    · exact ⟨natDigits_ne_nil _, natDigits_slashFree _⟩
  | tcp port =>
    simp only [Segment.data, Segment.kind, SegKind.name, List.map_cons, List.map_nil,
      natRepr_data, List.mem_cons, List.mem_nil_iff, or_false] at hp
    rcases hp with rfl | rfl
    · exact ⟨by decide, by decide⟩
    · exact ⟨natDigits_ne_nil _, natDigits_slashFree _⟩
  | udp port =>
    simp only [Segment.data, Segment.kind, SegKind.name, List.map_cons, List.map_nil,
      natRepr_data, List.mem_cons, List.mem_nil_iff, or_false] at hp
    rcases hp with rfl | rfl
    · exact ⟨by decide, by decide⟩
    · exact ⟨natDigits_ne_nil _, natDigits_slashFree _⟩
  | udt =>
    simp only [Segment.data, Segment.kind, SegKind.name, List.map_nil, List.mem_singleton] at hp
    rcases hp with rfl
    exact ⟨by decide, by decide⟩
  | utp =>
    simp only [Segment.data, Segment.kind, SegKind.name, List.map_nil, List.mem_singleton] at hp
    rcases hp with rfl
    exact ⟨by decide, by decide⟩

theorem renderS_inv (x : Segment) : Inv (renderS x).data := by
  rw [renderS_data]
  exact Inv.sepJoin (by simp) (seg_pieces x)

theorem render_inv (s : MultiAddr) : Inv (render s).data := by
  induction s with
  | S x => exact renderS_inv x
  | M m x ih =>
    rw [render, String.data_append]
    exact ih.append (renderS_inv x)

/-! ### Structural equality lemmas -/

theorem segEq_iff {a b : Segment} : segEq a b = true ↔ a = b := by
  cases a <;> cases b <;> simp [segEq]

theorem maEq_iff {a b : MultiAddr} : maEq a b = true ↔ a = b := by
  induction a generalizing b with
  | S x => cases b <;> simp [maEq, segEq_iff]
  | M m x ih => cases b <;> simp [maEq, segEq_iff, ih]

theorem toList_ne_nil (s : MultiAddr) : toList s ≠ [] := by
  cases s <;> simp [toList]

theorem toList_inj : ∀ {a b : MultiAddr}, toList a = toList b → a = b := by
  intro a
  induction a with
  | S x =>
    intro b h
    cases b with
    | S y =>
      rw [toList, toList] at h
      rcases List.cons.inj h with ⟨rfl, -⟩
      rfl
    | M n y =>
      exfalso
      rw [toList, toList] at h
      have hlen := congrArg List.length h
      simp only [List.length_append, List.length_cons, List.length_nil] at hlen
      exact toList_ne_nil n (List.length_eq_zero.1 (by omega))
  | M m x ih =>
    intro b h
    cases b with
    | S y =>
      exfalso
      rw [toList, toList] at h
      have hlen := congrArg List.length h
      simp only [List.length_append, List.length_cons, List.length_nil] at hlen
      exact toList_ne_nil m (List.length_eq_zero.1 (by omega))
    | M n y =>
      rw [toList, toList] at h
      rcases List.append_inj' h rfl with ⟨h1, h2⟩
      rcases List.cons.inj h2 with ⟨rfl, -⟩
      rw [ih h1]

/-! ### The claims -/

/-- C1: rendering the one-segment (leaf) stack `wrap s` produces exactly
`/` followed by the kind's name, then `/` followed by each field's
canonical textual form in declared order, with no trailing separator. -/
theorem c1_leaf_render (s : Segment) :
    render (wrap s) =
      "/" ++ s.kind.name ++ s.data.foldr (fun d acc => "/" ++ d ++ acc) "" ∧
    (render (wrap s)).data.getLast? ≠ some '/' := by
  constructor
  · apply String.ext
    show (renderS s).data = _
    rw [renderS_data, String.data_append, String.data_append, foldr_slash_data, slash_data]
    simp [List.map_map, Function.comp_def]
  · show (renderS s).data.getLast? ≠ some '/'
    intro hc
    exact (renderS_inv s).2.1 '/' (Option.mem_def.2 hc) rfl

/-- Witness for C1 at the segment `Tcp 22`. -/
theorem c1_leaf_render_witness :
    render (wrap (.tcp 22)) =
      "/" ++ (Segment.tcp 22).kind.name ++
        (Segment.tcp 22).data.foldr (fun d acc => "/" ++ d ++ acc) "" ∧
    (render (wrap (.tcp 22))).data.getLast? ≠ some '/' :=
  c1_leaf_render (.tcp 22)

/-- C2: rendering distributes over `append`: the cons `Display` impl
writes the rendering of the previous stack and then the leaf rendering
of the appended segment. -/
theorem c2_render_append (s : MultiAddr) (x : Segment) :
    render (append s x) = render s ++ render (wrap x) := rfl

/-- C3: the registry table of per-kind constant codes and names, and
their uniqueness across kinds. -/
theorem c3_registry :
    ((SegKind.code .dccp = 33 ∧ SegKind.name .dccp = "dccp") ∧
     (SegKind.code .http = 480 ∧ SegKind.name .http = "http") ∧
     (SegKind.code .https = 443 ∧ SegKind.name .https = "https") ∧
     (SegKind.code .ip4 = 4 ∧ SegKind.name .ip4 = "ip4") ∧
     (SegKind.code .ip6 = 41 ∧ SegKind.name .ip6 = "ip6") ∧
     (SegKind.code .ipfs = 421 ∧ SegKind.name .ipfs = "ipfs") ∧
     (SegKind.code .sctp = 132 ∧ SegKind.name .sctp = "sctp") ∧
     (SegKind.code .tcp = 6 ∧ SegKind.name .tcp = "tcp") ∧
     (SegKind.code .udp = 17 ∧ SegKind.name .udp = "udp") ∧
     (SegKind.code .udt = 301 ∧ SegKind.name .udt = "udt") ∧
     (SegKind.code .utp = 302 ∧ SegKind.name .utp = "utp")) ∧
    (∀ j k : SegKind, SegKind.code j = SegKind.code k → j = k) ∧
    (∀ j k : SegKind, SegKind.name j = SegKind.name k → j = k) := by
  refine ⟨by decide, by decide, by decide⟩

/-- Witness for C3: code uniqueness applied at a concrete kind pair. -/
theorem c3_registry_witness : SegKind.tcp = SegKind.tcp ∧ SegKind.code .dccp = 33 :=
  ⟨c3_registry.2.1 .tcp .tcp rfl, c3_registry.1.1.1⟩

/-- C4: stack equality holds iff the two stacks have the same length and
pairwise-equal segments in the same order; `equals` holds of
`wrap x` against itself and is reflexive, symmetric and transitive. -/
theorem c4_equality :
    (∀ a b : MultiAddr, maEq a b = true ↔
      ((toList a).length = (toList b).length ∧
        ∀ i : Nat, (toList a)[i]? = (toList b)[i]?)) ∧
    (∀ x : Segment, maEq (wrap x) (wrap x) = true) ∧
    (∀ a : MultiAddr, maEq a a = true) ∧
    (∀ a b : MultiAddr, maEq a b = true → maEq b a = true) ∧
    (∀ a b c : MultiAddr, maEq a b = true → maEq b c = true → maEq a c = true) := by
  have key : ∀ a b : MultiAddr, maEq a b = true ↔ toList a = toList b := by
    intro a b
    rw [maEq_iff]
    exact ⟨fun h => by rw [h], fun h => toList_inj h⟩
  refine ⟨?_, ?_, ?_, ?_, ?_⟩
  · intro a b
    rw [key]
    constructor
    · intro h
      rw [h]
      exact ⟨rfl, fun _ => rfl⟩
    · rintro ⟨-, h⟩
      exact List.ext_getElem? h
  · intro x
    rw [maEq_iff]
  · intro a
    rw [maEq_iff]
  · intro a b h
    rw [maEq_iff] at h ⊢
    exact h.symm
  · intro a b c h1 h2
    rw [maEq_iff] at h1 h2 ⊢
    exact h1.trans h2

/-- Witness for C4: symmetry applied at a concrete pair of stacks. -/
theorem c4_equality_witness : maEq (wrap .http) (wrap .http) = true :=
  c4_equality.2.2.2.1 (wrap .http) (wrap .http) (by decide)

/-- C5: the IPv4 address 1.2.3.4 converts to a segment whose wrapped
stack renders as `/ip4/1.2.3.4`, and appending `Tcp 22` renders as
`/ip4/1.2.3.4/tcp/22`. -/
theorem c5_ip4_tcp_render :
    render (wrap (segFromIpv4 ⟨1, 2, 3, 4⟩)) = "/ip4/1.2.3.4" ∧
    render (append (wrap (segFromIpv4 ⟨1, 2, 3, 4⟩)) (.tcp 22)) = "/ip4/1.2.3.4/tcp/22" :=
  ⟨by decide, by decide⟩

/-- The digest bytes of the repository's ipfs display test. -/
def testDigest : List Nat :=
  [213, 46, 187, 137, 216, 91, 2, 162, 132, 148, 130, 3, 166, 47, 242, 131,
   137, 197, 124, 159, 66, 190, 236, 78, 194, 13, 183, 106, 104, 145, 28, 11]

/-- The SHA2-256 multihash (algorithm code 18) of the test digest. -/
def testHash : MultiHash := ⟨18, testDigest⟩

/-- C6: appending the ipfs segment holding the SHA2-256 multihash of the
test digest to the `/ip4/1.2.3.4` stack renders as the full
concatenation, which equals the IPv4 render followed by the
single-segment ipfs render. -/
theorem c6_ipfs_concat :
    render (append (wrap (segFromIpv4 ⟨1, 2, 3, 4⟩)) (.ipfs testHash)) =
      "/ip4/1.2.3.4/ipfs/QmcgpsyWgH8Y8ajJz1Cu72KnS5uo2Aa2LpzU7kinSupNKC" ∧
    render (wrap (.ipfs testHash)) =
      "/ipfs/QmcgpsyWgH8Y8ajJz1Cu72KnS5uo2Aa2LpzU7kinSupNKC" ∧
    render (append (wrap (segFromIpv4 ⟨1, 2, 3, 4⟩)) (.ipfs testHash)) =
      render (wrap (segFromIpv4 ⟨1, 2, 3, 4⟩)) ++ render (wrap (.ipfs testHash)) :=
  ⟨by decide, by decide, rfl⟩

/-- C7: the two conversions that exist in `src/segment.rs` produce a
segment of the matching kind carrying the given address (the claimed
third, generic v4-or-v6 conversion has no impl in the source, though the
source's own tests invoke it). -/
theorem c7_existing_conversions (a : Ipv4Addr) (b : Ipv6Addr) :
    segFromIpv4 a = .ip4 a ∧ (segFromIpv4 a).kind = .ip4 ∧
    segFromIpv6 b = .ip6 b ∧ (segFromIpv6 b).kind = .ip6 :=
  ⟨rfl, rfl, rfl, rfl⟩

/-- C8: wrapping the converted segment yields a one-segment stack whose
render equals the leaf rendering of that segment (the claimed direct
address-to-stack conversion has no impl in `src/multiaddr.rs`, though
its doc comment and tests invoke it). -/
theorem c8_wrap_stack (a : Ipv4Addr) (b : Ipv6Addr) :
    render (wrap (segFromIpv4 a)) = renderS (segFromIpv4 a) ∧
    render (wrap (segFromIpv6 b)) = renderS (segFromIpv6 b) :=
  ⟨rfl, rfl⟩

/-- C9: every rendered stack begins with a slash and contains no two
adjacent slashes, and every kind's name and every field's canonical
textual form is non-empty. -/
theorem c9_render_invariant (s : MultiAddr) :
    (render s).data.head? = some '/' ∧
    noDoubleSlash (render s).data ∧
    (∀ x : Segment, x.kind.name ≠ "" ∧ ∀ d ∈ x.data, d ≠ "") := by
  refine ⟨(render_inv s).1, (render_inv s).2.2, ?_⟩
  intro x
  have hp := seg_pieces x
  constructor
  · intro hc
    have h1 := hp x.kind.name.data (List.mem_cons_self _ _)
    rw [hc] at h1
    exact h1.1 rfl
  · intro d hd hc
    have h2 := hp d.data (List.mem_cons_of_mem _ (List.mem_map_of_mem String.data hd))
    rw [hc] at h2
    exact h2.1 rfl

/-- Witness for C9 at the stack `wrap (Tcp 22)` and the field form of
its port. -/
theorem c9_render_invariant_witness :
    (render (wrap (.tcp 22))).data.head? = some '/' ∧ natRepr 22 ≠ "" :=
  ⟨(c9_render_invariant (wrap (.tcp 22))).1,
   ((c9_render_invariant (wrap (.tcp 22))).2.2 (.tcp 22)).2 (natRepr 22) (by decide)⟩

/-- C10: the four zero-field kinds yield no field data, any two
instances of such a kind are equal, and their leaf stacks render as
exactly the slash-name group. -/
theorem c10_zero_field :
    (Segment.data .http = [] ∧ Segment.data .https = [] ∧
      Segment.data .udt = [] ∧ Segment.data .utp = []) ∧
    (∀ a b : Segment, a.kind = b.kind →
      (a.kind = .http ∨ a.kind = .https ∨ a.kind = .udt ∨ a.kind = .utp) → a = b) ∧
    (render (wrap .http) = "/http" ∧ render (wrap .https) = "/https" ∧
      render (wrap .udt) = "/udt" ∧ render (wrap .utp) = "/utp") := by
  refine ⟨⟨rfl, rfl, rfl, rfl⟩, ?_, by decide⟩
  intro a b hk hz
  cases a <;> cases b <;> simp_all [Segment.kind]

/-- Witness for C10: instance uniqueness applied at two `Http` values. -/
theorem c10_zero_field_witness : Segment.http = Segment.http :=
  c10_zero_field.2.1 .http .http rfl (Or.inl rfl)

end Maddr
